import Mathlib

/-!
# Verification of the PC sheet form-to-document synchronization core

This development embeds the synchronization core of
`src/module/sheets/actorSheetNumeneraPC.js`: the keyed collection merger
and submission assembler (`_updateObject` with its inner
`formDataReduceFunction`), the field identity rebinders
(`onSkillNameChange`, `onWeaponNameChange`, `onAbilityNameChange`) and the
row lifecycle handler produced by `onClickControlGenerator`.

JavaScript objects are modelled as insertion-ordered association lists of
string keys; assigning to an existing key overwrites its value in place,
assigning a fresh key appends.  A submitted row is modelled by `Row`: its
`name` property is `Option String` (`none` models a row object without a
string "name" property, on which `v["name"].trim()` raises a TypeError),
all other properties are opaque.  Fallible JS evaluation is modelled in
`Except Unit`.
-/

deriving instance DecidableEq for Except

namespace NumeneraPC

/-- Model of JavaScript whitespace as used by `String.prototype.trim`
(ASCII part; the claims never depend on the exact whitespace set). -/
def jsWhitespace (c : Char) : Bool :=
  c = ' ' || c = '\t' || c = '\n' || c = '\r' || c = '\x0b' || c = '\x0c'

/-- Model of `String.prototype.trim`: drop leading and trailing whitespace. -/
def jsTrim (s : String) : String :=
  String.mk (((s.data.dropWhile jsWhitespace).reverse.dropWhile jsWhitespace).reverse)

/-- `o.hasOwnProperty(k)` on a JS object modelled as an association list. -/
def hasKey {α : Type} (o : List (String × α)) (k : String) : Bool :=
  o.any (fun e => e.1 == k)

/-- `o[k]` (property read) on a JS object modelled as an association list. -/
def lookupKey {α : Type} (o : List (String × α)) (k : String) : Option α :=
  (o.find? (fun e => e.1 == k)).map Prod.snd

/-- Number of bindings an association list holds for key `k`
(a faithful JS object holds at most one). -/
def countKey {α : Type} (o : List (String × α)) (k : String) : Nat :=
  (o.filter (fun e => e.1 == k)).length

/-- `o[k] = v` (property write): overwrite in place when the key exists,
append otherwise — JS insertion-order semantics. -/
def setKey {α : Type} (o : List (String × α)) (k : String) (v : α) : List (String × α) :=
  if hasKey o k then o.map (fun e => if e.1 == k then (k, v) else e) else o ++ [(k, v)]

/-- One submitted row (the Entity-shaped value of one row-indexed slot of
`fd.data.skills` / `fd.data.equipment.weapons` / `fd.data.abilities`).
`name = none` models a row object lacking a string "name" property. -/
structure Row where
  name : Option String
  fields : List (String × String)
deriving DecidableEq

/-- A finished collection map: values are either an upserted row or the
`null` deletion marker. -/
abbrev Patch := List (String × Option Row)

/-- The trimmed name under which a row will be keyed, when it has one. -/
def trimName (r : Row) : Option String := r.name.map jsTrim

/-- `formDataReduceFunction` from `_updateObject`:
`const name = v["name"].trim(); obj[name] = v; return obj;`.
When `v` has no string "name" property the call `.trim()` raises a
TypeError, modelled by `Except.error ()`. -/
def formDataReduceFunction (obj : Patch) (v : Row) : Except Unit Patch :=
  match v.name with
  | none => Except.error ()
  | some n => Except.ok (setKey obj (jsTrim n) (some v))

/-- `Object.values(formXs).reduce(formDataReduceFunction, {})` — the rows
are the values of the row-indexed sub-object in iteration order. -/
def reduceRows (rows : List Row) : Except Unit Patch :=
  rows.foldlM formDataReduceFunction []

/-- Total (error-free) version of one reduce step, used to describe the
result of `reduceRows` on submissions whose rows all carry a name. -/
def reduceStep (obj : Patch) (v : Row) : Patch :=
  match v.name with
  | none => obj
  | some n => setKey obj (jsTrim n) (some v)

/-- Total version of `reduceRows`. -/
def reducePure (rows : List Row) : Patch := rows.foldl reduceStep []

/-- The last submitted row whose trimmed name is `k` — the row that wins
the key `k` under JS last-write-wins assignment. -/
def lastMatch (rows : List Row) (k : String) : Option Row :=
  (rows.filter (fun r => trimName r == some k)).getLast?

/-- The deletion loop of `_updateObject`:
`for (sk of Object.keys(persisted)) if (sk && !m.hasOwnProperty(sk)) m["-=" + sk] = null`.
`pk` is the persisted collection's key list in iteration order; note the
loop tests `hasOwnProperty` against the map it is mutating. -/
def addSentinels (pk : List String) (m : Patch) : Patch :=
  pk.foldl (fun acc k => if k ≠ "" ∧ ¬ hasKey acc k then setKey acc ("-=" ++ k) none else acc) m

/-- The finished map `_updateObject` builds for one managed collection:
key the submitted rows, then add deletion sentinels for vanished
persisted keys. -/
def collectionPatch (persisted : List (String × Row)) (rows : List Row) : Except Unit Patch :=
  (reduceRows rows).map (fun m => addSentinels (persisted.map Prod.fst) m)

/-- A value of the final patch object: either a raw scalar carried over
from the flat submission (or the seeded `_id`), or one finished
collection map. -/
inductive PatchVal where
  | str (s : String)
  | obj (m : Patch)
deriving DecidableEq

/-- The slice of `this.object` that `_updateObject` reads: its `_id` and
the three persisted collections (`this.object.data.data.skills`,
`...equipment.weapons`, `...abilities`), each an insertion-ordered map
from name to entity. -/
structure ActorDoc where
  id : String
  skills : List (String × Row)
  weapons : List (String × Row)
  abilities : List (String × Row)
deriving DecidableEq

/-- The managed-collection slices of `expandObject(formData)`: the values,
in iteration order, of `fd.data.skills`, `fd.data.equipment.weapons` and
`fd.data.abilities` (each defaulting to `{}`, i.e. `[]`, when absent).
`expandObject` itself is the host's external flattener utility and is
treated as given. -/
structure Submission where
  skills : List Row
  weapons : List Row
  abilities : List Row
deriving DecidableEq

/-- `s.startsWith(p)` on JS strings. -/
def strStarts (s p : String) : Bool := p.data.isPrefixOf s.data

/-- The filter of the re-combination step:
`e[0].startsWith("data.skills") || e[0].startsWith("data.equipment.weapons") || e[0].startsWith("data.abilities")`. -/
def keyInManagedNS (k : String) : Bool :=
  strStarts k "data.skills" || strStarts k "data.equipment.weapons" || strStarts k "data.abilities"

/-- The re-combination step of `_updateObject`: drop every raw flat entry
whose key lies in a managed namespace, then reduce the remaining entries
onto an object seeded with the document `_id` and the three finished
collection maps. -/
def assemble (doc : ActorDoc) (formData : List (String × String))
    (skills weapons abilities : Patch) : List (String × PatchVal) :=
  (formData.filter (fun e => !(keyInManagedNS e.1))).foldl
    (fun obj e => setKey obj e.1 (PatchVal.str e.2))
    [("_id", PatchVal.str doc.id),
     ("data.skills", PatchVal.obj skills),
     ("data.equipment.weapons", PatchVal.obj weapons),
     ("data.abilities", PatchVal.obj abilities)]

/-- `_updateObject(event, formData)`: reduce the three row-indexed
sub-objects to name-keyed maps, add deletion sentinels for persisted keys
that vanished, and re-combine with the unmanaged raw entries.  `formData`
is the raw flat submission, `fd` the managed slices of its expansion. -/
def updateObject (doc : ActorDoc) (formData : List (String × String)) (fd : Submission) :
    Except Unit (List (String × PatchVal)) := do
  let skills0 ← reduceRows fd.skills
  let weapons0 ← reduceRows fd.weapons
  let abilities0 ← reduceRows fd.abilities
  let skills := addSentinels (doc.skills.map Prod.fst) skills0
  let weapons := addSentinels (doc.weapons.map Prod.fst) weapons0
  let abilities := addSentinels (doc.abilities.map Prod.fst) abilities0
  return assemble doc formData skills weapons abilities

/-- The submission-path identifiers (`name` attributes) of the five
fields of one skill row, in the fixed structural order the rebinder
assumes. -/
structure SkillRowFields where
  name : String
  stat : String
  inability : String
  trained : String
  specialized : String
deriving DecidableEq

/-- `onSkillNameChange`: on blur, rewrite every field path of the row to
`data.skills.<input.value>.<role>`.  The source assigns all five `name`
attributes unconditionally. -/
def onSkillNameChange (value : String) (_row : SkillRowFields) : SkillRowFields :=
  { name := "data.skills." ++ value ++ ".name",
    stat := "data.skills." ++ value ++ ".stat",
    inability := "data.skills." ++ value ++ ".inability",
    trained := "data.skills." ++ value ++ ".trained",
    specialized := "data.skills." ++ value ++ ".specialized" }

/-- The submission-path identifiers of the six fields of one weapon row. -/
structure WeaponRowFields where
  name : String
  weightClass : String
  weaponType : String
  damage : String
  range : String
  notes : String
deriving DecidableEq

/-- `onWeaponNameChange`: rewrite every field path of the weapon row to
`data.equipment.weapons.<input.value>.<role>`. -/
def onWeaponNameChange (value : String) (_row : WeaponRowFields) : WeaponRowFields :=
  { name := "data.equipment.weapons." ++ value ++ ".name",
    weightClass := "data.equipment.weapons." ++ value ++ ".weightClass",
    weaponType := "data.equipment.weapons." ++ value ++ ".weaponType",
    damage := "data.equipment.weapons." ++ value ++ ".damage",
    range := "data.equipment.weapons." ++ value ++ ".range",
    notes := "data.equipment.weapons." ++ value ++ ".notes" }

/-- The submission-path identifiers of the four fields of one ability row. -/
structure AbilityRowFields where
  name : String
  costAmount : String
  costPool : String
  description : String
deriving DecidableEq

/-- `onAbilityNameChange`: rewrite every field path of the ability row to
`data.abilities.<input.value>.<role>`. -/
def onAbilityNameChange (value : String) (_row : AbilityRowFields) : AbilityRowFields :=
  { name := "data.abilities." ++ value ++ ".name",
    costAmount := "data.abilities." ++ value ++ ".cost.amount",
    costPool := "data.abilities." ++ value ++ ".cost.pool",
    description := "data.abilities." ++ value ++ ".description" }

/-- A dynamic table as the click handler sees it: the contents of its
`<template>` children (in document order) and its `<tbody>` rows.  Row
payloads are opaque. -/
structure Table where
  templates : List String
  body : List String
deriving DecidableEq

/-- Errors a click-handler invocation can surface: the explicit
`throw new Error("No row template found in ... table")`, or a JS
TypeError (e.g. `closest` returned null). -/
inductive SheetErr where
  | configError (msg : String)
  | typeError
deriving DecidableEq

/-- Result of one click-handler invocation: the updated table and whether
the handler triggered `this._onSubmit`. -/
structure ClickResult where
  table : Table
  submitted : Bool
deriving DecidableEq

/-- The handler returned by `onClickControlGenerator(control)`.
`action` is `a.dataset.action`; `row` is `a.closest("." + control)` for
the delete branch (`none` when no ancestor matched).  "create" clones the
first template's content onto the end of the body and does not submit;
"delete" detaches the located row and submits; any other action returns
unchanged. -/
def onClickControl (control : String) (action : String) (table : Table) (row : Option String) :
    Except SheetErr ClickResult :=
  if action == "create" then
    match table.templates.head? with
    | none => Except.error (SheetErr.configError ("No row template found in " ++ control ++ " table"))
    | some tpl => Except.ok ⟨{ table with body := table.body ++ [tpl] }, false⟩
  else if action == "delete" then
    match row with
    | none => Except.error SheetErr.typeError
    | some r => Except.ok ⟨{ table with body := table.body.erase r }, true⟩
  else Except.ok ⟨table, false⟩

/-- A concrete row named "A", used in concrete evaluations. -/
def rowA : Row := ⟨some "A", [("stat", "Might")]⟩

/-- A concrete row named "X" (first duplicate), used in concrete evaluations. -/
def rowX1 : Row := ⟨some "X", [("stat", "Might")]⟩

/-- A concrete row named "X" (second duplicate, different content). -/
def rowX2 : Row := ⟨some "X", [("stat", "Speed")]⟩

/-- A concrete row whose name trims to the empty string. -/
def rowBlank : Row := ⟨some " ", [("stat", "Might")]⟩

/-- A concrete skill row whose field paths encode the name "A". -/
def skillRowA : SkillRowFields :=
  ⟨"data.skills.A.name", "data.skills.A.stat", "data.skills.A.inability",
   "data.skills.A.trained", "data.skills.A.specialized"⟩

/-- The sentinel entries the deletion loop appends when starting from map
`m`: one `"-=" + k → null` per key of `pk` that is non-empty and not a
key of `m` (closed form of `addSentinels`, valid when no collision with
existing keys occurs). -/
def sentinelsFor (pk : List String) (m : Patch) : Patch :=
  (pk.filter (fun k => !(k == "") && !(hasKey m k))).map (fun k => ("-=" ++ k, none))

/-! ## Association-list lemmas -/

variable {α : Type}

theorem lookupKey_nil (k : String) : lookupKey ([] : List (String × α)) k = none := rfl

theorem lookupKey_cons (a : String) (v : α) (l : List (String × α)) (k : String) :
    lookupKey ((a, v) :: l) k = if a == k then some v else lookupKey l k := by
  by_cases h : (a == k) = true
  · unfold lookupKey
    rw [List.find?_cons_of_pos (p := fun e => e.1 == k) l h, if_pos h]
    rfl
  · unfold lookupKey
    rw [List.find?_cons_of_neg (p := fun e => e.1 == k) l h, if_neg h]

theorem hasKey_nil (k : String) : hasKey ([] : List (String × α)) k = false := rfl

theorem hasKey_cons (a : String) (v : α) (l : List (String × α)) (k : String) :
    hasKey ((a, v) :: l) k = ((a == k) || hasKey l k) := rfl

theorem hasKey_append (l₁ l₂ : List (String × α)) (k : String) :
    hasKey (l₁ ++ l₂) k = (hasKey l₁ k || hasKey l₂ k) := by
  simp [hasKey, List.any_append]

theorem hasKey_iff_mem (l : List (String × α)) (k : String) :
    hasKey l k = true ↔ k ∈ l.map Prod.fst := by
  induction l with
  | nil => simp [hasKey_nil]
  | cons e l ih =>
      obtain ⟨a, v⟩ := e
      rw [hasKey_cons]
      simp only [Bool.or_eq_true, beq_iff_eq, ih, List.map_cons, List.mem_cons]
      exact or_congr_left eq_comm

theorem hasKey_eq_isSome_lookupKey (l : List (String × α)) (k : String) :
    hasKey l k = (lookupKey l k).isSome := by
  induction l with
  | nil => rfl
  | cons e l ih =>
      obtain ⟨a, v⟩ := e
      by_cases h : a == k
      · simp [hasKey_cons, lookupKey_cons, h]
      · simp only [Bool.not_eq_true] at h
        simp [hasKey_cons, lookupKey_cons, h, ih]

theorem lookupKey_eq_none_of_hasKey_false {l : List (String × α)} {k : String}
    (h : hasKey l k = false) : lookupKey l k = none := by
  have := hasKey_eq_isSome_lookupKey l k
  rw [h] at this
  exact Option.not_isSome_iff_eq_none.mp (by simp [← this])

theorem hasKey_true_of_lookupKey {l : List (String × α)} {k : String} {v : α}
    (h : lookupKey l k = some v) : hasKey l k = true := by
  rw [hasKey_eq_isSome_lookupKey, h]
  rfl

theorem lookupKey_append (l₁ l₂ : List (String × α)) (k : String) :
    lookupKey (l₁ ++ l₂) k = if hasKey l₁ k then lookupKey l₁ k else lookupKey l₂ k := by
  induction l₁ with
  | nil => simp [hasKey_nil, lookupKey_nil]
  | cons e l ih =>
      obtain ⟨a, v⟩ := e
      by_cases h : a == k
      · simp [lookupKey_cons, hasKey_cons, h]
      · simp only [Bool.not_eq_true] at h
        simp [lookupKey_cons, hasKey_cons, h, ih]

theorem setKey_of_hasKey_false {l : List (String × α)} {k : String} (v : α)
    (h : hasKey l k = false) : setKey l k v = l ++ [(k, v)] := by
  simp [setKey, h]

theorem lookupKey_map_overwrite (l : List (String × α)) (k : String) (v : α) :
    lookupKey (l.map (fun e => if e.1 == k then (k, v) else e)) k
      = (lookupKey l k).map (fun _ => v) := by
  induction l with
  | nil => rfl
  | cons e l ih =>
      obtain ⟨a, w⟩ := e
      rw [List.map_cons]
      by_cases h : (a == k) = true
      · rw [if_pos h, lookupKey_cons, lookupKey_cons, if_pos h,
          if_pos (beq_self_eq_true k)]
        rfl
      · rw [if_neg h, lookupKey_cons, lookupKey_cons, if_neg h, if_neg h]
        exact ih

theorem lookupKey_setKey_self (l : List (String × α)) (k : String) (v : α) :
    lookupKey (setKey l k v) k = some v := by
  by_cases h : hasKey l k
  · rw [setKey, if_pos h, lookupKey_map_overwrite]
    rw [hasKey_eq_isSome_lookupKey] at h
    obtain ⟨w, hw⟩ := Option.isSome_iff_exists.mp h
    simp [hw]
  · simp only [Bool.not_eq_true] at h
    rw [setKey_of_hasKey_false v h, lookupKey_append, lookupKey_cons]
    simp [h]

theorem lookupKey_map_overwrite_ne (l : List (String × α)) {k k2 : String} (v : α)
    (h : k2 ≠ k) :
    lookupKey (l.map (fun e => if e.1 == k then (k, v) else e)) k2 = lookupKey l k2 := by
  induction l with
  | nil => rfl
  | cons e l ih =>
      obtain ⟨a, w⟩ := e
      rw [List.map_cons]
      have hk2 : (k == k2) = false := by
        simpa using fun hh => h hh.symm
      by_cases ha : (a == k) = true
      · have hak : a = k := by simpa using ha
        subst hak
        rw [if_pos ha, lookupKey_cons, lookupKey_cons, if_neg (by simp [hk2]),
          if_neg (by simp [hk2])]
        exact ih
      · rw [if_neg ha, lookupKey_cons, lookupKey_cons]
        by_cases ha2 : (a == k2) = true
        · rw [if_pos ha2, if_pos ha2]
        · rw [if_neg ha2, if_neg ha2]
          exact ih

theorem lookupKey_setKey_ne (l : List (String × α)) {k k2 : String} (v : α)
    (h : k2 ≠ k) : lookupKey (setKey l k v) k2 = lookupKey l k2 := by
  by_cases hk : hasKey l k
  · rw [setKey, if_pos hk, lookupKey_map_overwrite_ne l v h]
  · simp only [Bool.not_eq_true] at hk
    have h1 : (k == k2) = false := by simpa using fun hh => h hh.symm
    rw [setKey_of_hasKey_false v hk, lookupKey_append, lookupKey_cons, lookupKey_nil,
      if_neg (show ¬((k == k2) = true) by simp [h1])]
    by_cases h2 : hasKey l k2 = true
    · rw [if_pos h2]
    · rw [if_neg h2, lookupKey_eq_none_of_hasKey_false (by simpa using h2)]

theorem hasKey_setKey (l : List (String × α)) (k k2 : String) (v : α) :
    hasKey (setKey l k v) k2 = (hasKey l k2 || (k == k2)) := by
  by_cases h : k2 = k
  · subst h
    rw [hasKey_eq_isSome_lookupKey, lookupKey_setKey_self]
    simp
  · rw [hasKey_eq_isSome_lookupKey, lookupKey_setKey_ne l v h,
      ← hasKey_eq_isSome_lookupKey]
    have h1 : (k == k2) = false := by simpa using fun hh => h hh.symm
    simp [h1]

theorem mem_setKey {l : List (String × α)} {k : String} {v : α} {e : String × α}
    (h : e ∈ setKey l k v) : e ∈ l ∨ e = (k, v) := by
  by_cases hk : hasKey l k
  · rw [setKey, if_pos hk] at h
    obtain ⟨e0, he0, hfe⟩ := List.mem_map.mp h
    by_cases h0 : e0.1 == k
    · right
      rw [← hfe]
      simp [h0]
    · left
      simp only [Bool.not_eq_true] at h0
      rw [← hfe]
      simpa [h0] using he0
  · simp only [Bool.not_eq_true] at hk
    rw [setKey_of_hasKey_false v hk] at h
    rcases List.mem_append.mp h with h1 | h1
    · exact Or.inl h1
    · exact Or.inr (by simpa using h1)

theorem countKey_nil (k : String) : countKey ([] : List (String × α)) k = 0 := rfl

theorem countKey_append (l₁ l₂ : List (String × α)) (k : String) :
    countKey (l₁ ++ l₂) k = countKey l₁ k + countKey l₂ k := by
  simp [countKey, List.filter_append]

theorem countKey_eq_zero_of_hasKey_false {l : List (String × α)} {k : String}
    (h : hasKey l k = false) : countKey l k = 0 := by
  induction l with
  | nil => rfl
  | cons e l ih =>
      obtain ⟨a, v⟩ := e
      rw [hasKey_cons, Bool.or_eq_false_iff] at h
      rw [countKey, List.filter_cons, if_neg (by simp [h.1])]
      exact ih h.2

theorem countKey_pos_of_lookupKey {l : List (String × α)} {k : String} {v : α}
    (h : lookupKey l k = some v) : 1 ≤ countKey l k := by
  induction l with
  | nil => rw [lookupKey_nil] at h; exact absurd h (by simp)
  | cons e l ih =>
      obtain ⟨a, w⟩ := e
      by_cases ha : (a == k) = true
      · rw [countKey, List.filter_cons, if_pos (by simpa using ha), List.length_cons]
        omega
      · rw [lookupKey_cons, if_neg ha] at h
        rw [countKey, List.filter_cons, if_neg (by simpa using ha)]
        exact ih h

theorem countKey_map_overwrite (l : List (String × α)) (k k2 : String) (v : α) :
    countKey (l.map (fun e => if e.1 == k then (k, v) else e)) k2 = countKey l k2 := by
  induction l with
  | nil => rfl
  | cons e l ih =>
      obtain ⟨a, w⟩ := e
      rw [List.map_cons]
      by_cases ha : (a == k) = true
      · have hak : a = k := by simpa using ha
        subst hak
        rw [if_pos ha, countKey, countKey, List.filter_cons, List.filter_cons]
        by_cases h2 : (a == k2) = true
        · rw [if_pos (by simpa using h2), if_pos (by simpa using h2)]
          simpa [countKey] using ih
        · rw [if_neg (by simpa using h2), if_neg (by simpa using h2)]
          exact ih
      · rw [if_neg ha, countKey, countKey, List.filter_cons, List.filter_cons]
        by_cases h2 : (a == k2) = true
        · rw [if_pos (by simpa using h2), if_pos (by simpa using h2)]
          simpa [countKey] using ih
        · rw [if_neg (by simpa using h2), if_neg (by simpa using h2)]
          exact ih

theorem countKey_setKey_le {l : List (String × α)} {k2 : String} (k : String) (v : α)
    (h : countKey l k2 ≤ 1) : countKey (setKey l k v) k2 ≤ 1 := by
  by_cases hk : hasKey l k
  · rw [setKey, if_pos hk, countKey_map_overwrite]
    exact h
  · simp only [Bool.not_eq_true] at hk
    rw [setKey_of_hasKey_false v hk, countKey_append]
    by_cases h2 : (k == k2) = true
    · have : k = k2 := by simpa using h2
      subst this
      rw [countKey_eq_zero_of_hasKey_false hk]
      simp [countKey, List.filter_cons]
    · have : countKey [(k, v)] k2 = 0 := by
        simp [countKey, List.filter_cons, if_neg, h2]
      omega

theorem lookupKey_of_mem_nodup {l : List (String × α)} {k : String} {v : α}
    (hnd : (l.map Prod.fst).Nodup) (h : (k, v) ∈ l) : lookupKey l k = some v := by
  induction l with
  | nil => exact absurd h (List.not_mem_nil _)
  | cons e l ih =>
      obtain ⟨a, w⟩ := e
      rw [List.map_cons, List.nodup_cons] at hnd
      rcases List.mem_cons.mp h with h1 | h1
      · injection h1 with hk hv
        subst hk
        subst hv
        rw [lookupKey_cons, if_pos (by simp)]
      · have hne : (a == k) = false := by
          simp only [beq_eq_false_iff_ne, ne_eq]
          intro hak
          subst hak
          exact hnd.1 (List.mem_map.mpr ⟨(a, v), h1, rfl⟩)
        rw [lookupKey_cons, if_neg (by simp [hne])]
        exact ih hnd.2 h1

theorem lookupKey_eq_none_of_not_mem {l : List (String × α)} {k : String}
    (h : k ∉ l.map Prod.fst) : lookupKey l k = none := by
  refine lookupKey_eq_none_of_hasKey_false ?_
  by_contra hc
  simp only [Bool.not_eq_false] at hc
  exact h ((hasKey_iff_mem l k).mp hc)

theorem lookupKey_foldl_setKey_not_mem {β : Type} (g : β → α) (l : List (String × β))
    (init : List (String × α)) (k : String) (h : k ∉ l.map Prod.fst) :
    lookupKey (l.foldl (fun o e => setKey o e.1 (g e.2)) init) k = lookupKey init k := by
  induction l generalizing init with
  | nil => rfl
  | cons e l ih =>
      rw [List.foldl_cons]
      rw [List.map_cons] at h
      have h1 : k ≠ e.1 := fun hh => h (List.mem_cons.mpr (Or.inl hh))
      have h2 : k ∉ l.map Prod.fst := fun hh => h (List.mem_cons.mpr (Or.inr hh))
      rw [ih _ h2, lookupKey_setKey_ne _ _ h1]

theorem lookupKey_foldl_setKey_mem {β : Type} (g : β → α) (l : List (String × β))
    (init : List (String × α)) {k : String} {v : β}
    (hnd : (l.map Prod.fst).Nodup) (h : (k, v) ∈ l) :
    lookupKey (l.foldl (fun o e => setKey o e.1 (g e.2)) init) k = some (g v) := by
  induction l generalizing init with
  | nil => exact absurd h (List.not_mem_nil _)
  | cons e l ih =>
      rw [List.map_cons, List.nodup_cons] at hnd
      rw [List.foldl_cons]
      rcases List.mem_cons.mp h with h1 | h1
      · subst h1
        rw [lookupKey_foldl_setKey_not_mem g l _ k hnd.1, lookupKey_setKey_self]
      · exact ih _ hnd.2 h1

theorem str_append_cancel {p a b : String} (h : p ++ a = p ++ b) : a = b := by
  obtain ⟨pd⟩ := p
  obtain ⟨ad⟩ := a
  obtain ⟨bd⟩ := b
  have hd : pd ++ ad = pd ++ bd := congrArg String.data h
  exact congrArg String.mk (List.append_cancel_left hd)

theorem sentinel_key_ne_empty (k : String) : ("-=" ++ k) ≠ "" := by
  intro h
  have hd : ('-' :: '=' :: k.data) = ([] : List Char) := congrArg String.data h
  simp at hd

/-! ## Lemmas about the keying reduce -/

theorem reducePure_nil : reducePure [] = [] := rfl

theorem reducePure_concat (rows : List Row) (r : Row) :
    reducePure (rows ++ [r]) = reduceStep (reducePure rows) r := by
  rw [reducePure, reducePure, List.foldl_append, List.foldl_cons, List.foldl_nil]

theorem lookupKey_reducePure (rows : List Row) (k : String) :
    lookupKey (reducePure rows) k = (lastMatch rows k).map Option.some := by
  induction rows using List.reverseRecOn with
  | nil => rfl
  | append_singleton rows r ih =>
      rw [reducePure_concat, lastMatch, List.filter_append]
      cases hn : r.name with
      | none =>
          have hstep : reduceStep (reducePure rows) r = reducePure rows := by
            rw [reduceStep, hn]
          have hfil : List.filter (fun r2 => trimName r2 == some k) [r] = [] := by
            simp [List.filter, trimName, hn]
          rw [hstep, hfil, List.append_nil, ih, lastMatch]
      | some n =>
          have hstep : reduceStep (reducePure rows) r
              = setKey (reducePure rows) (jsTrim n) (some r) := by
            rw [reduceStep, hn]
          by_cases hk : jsTrim n = k
          · have hfil : List.filter (fun r2 => trimName r2 == some k) [r] = [r] := by
              simp [List.filter, trimName, hn, hk]
            rw [hstep, hk, hfil, lookupKey_setKey_self, List.getLast?_concat]
            rfl
          · have hb : (jsTrim n == k) = false := by simpa using hk
            have hfil : List.filter (fun r2 => trimName r2 == some k) [r] = [] := by
              simp [List.filter, trimName, hn, hb]
            rw [hstep, lookupKey_setKey_ne _ _ (fun hh => hk hh.symm), hfil,
              List.append_nil, ih, lastMatch]

theorem countKey_foldl_reduceStep (rows : List Row) (acc : Patch)
    (h : ∀ k2, countKey acc k2 ≤ 1) : ∀ k2, countKey (rows.foldl reduceStep acc) k2 ≤ 1 := by
  induction rows generalizing acc with
  | nil => exact h
  | cons r rows ih =>
      rw [List.foldl_cons]
      refine ih _ (fun k2 => ?_)
      cases hn : r.name with
      | none => rw [reduceStep, hn]; exact h k2
      | some n => rw [reduceStep, hn]; exact countKey_setKey_le _ _ (h k2)

theorem countKey_reducePure_le (rows : List Row) (k : String) :
    countKey (reducePure rows) k ≤ 1 :=
  countKey_foldl_reduceStep rows [] (fun k2 => by rw [countKey_nil]; omega) k

theorem foldl_reduceStep_vals (rows : List Row) (acc : Patch)
    (h : ∀ e ∈ acc, e.2 ≠ none) : ∀ e ∈ rows.foldl reduceStep acc, e.2 ≠ none := by
  induction rows generalizing acc with
  | nil => exact h
  | cons r rows ih =>
      rw [List.foldl_cons]
      refine ih _ (fun e he => ?_)
      cases hn : r.name with
      | none => rw [reduceStep, hn] at he; exact h e he
      | some n =>
          rw [reduceStep, hn] at he
          rcases mem_setKey he with h1 | h1
          · exact h e h1
          · rw [h1]; simp

theorem reducePure_vals (rows : List Row) : ∀ e ∈ reducePure rows, e.2 ≠ none :=
  foldl_reduceStep_vals rows [] (fun e he => absurd he (List.not_mem_nil e))

theorem foldlM_reduce_eq_ok (rows : List Row) (acc : Patch)
    (h : ∀ r ∈ rows, r.name.isSome) :
    List.foldlM formDataReduceFunction acc rows = Except.ok (rows.foldl reduceStep acc) := by
  induction rows generalizing acc with
  | nil => rfl
  | cons r rows ih =>
      obtain ⟨n, hn⟩ := Option.isSome_iff_exists.mp (h r (List.mem_cons_self r rows))
      rw [List.foldlM_cons, List.foldl_cons]
      have h1 : formDataReduceFunction acc r = Except.ok (setKey acc (jsTrim n) (some r)) := by
        rw [formDataReduceFunction, hn]
      have h2 : reduceStep acc r = setKey acc (jsTrim n) (some r) := by
        rw [reduceStep, hn]
      rw [h1, h2]
      exact ih _ (fun r2 hr2 => h r2 (List.mem_cons_of_mem r hr2))

theorem reduceRows_eq_ok {rows : List Row} (h : ∀ r ∈ rows, r.name.isSome) :
    reduceRows rows = Except.ok (reducePure rows) :=
  foldlM_reduce_eq_ok rows [] h

theorem foldlM_reduce_error_iff (rows : List Row) (acc : Patch) :
    List.foldlM formDataReduceFunction acc rows = Except.error ()
      ↔ ∃ r ∈ rows, r.name = none := by
  induction rows generalizing acc with
  | nil =>
      constructor
      · intro h
        exact Except.noConfusion h
      · rintro ⟨r, hr, _⟩
        exact absurd hr (List.not_mem_nil r)
  | cons r rows ih =>
      rw [List.foldlM_cons]
      cases hn : r.name with
      | none =>
          have h1 : formDataReduceFunction acc r = Except.error () := by
            rw [formDataReduceFunction, hn]
          have hb : ((Except.error () : Except Unit Patch) >>=
              fun acc2 => List.foldlM formDataReduceFunction acc2 rows)
                = (Except.error () : Except Unit Patch) := rfl
          rw [h1, hb]
          exact iff_of_true rfl ⟨r, List.mem_cons_self r rows, hn⟩
      | some n =>
          have h1 : formDataReduceFunction acc r = Except.ok (setKey acc (jsTrim n) (some r)) := by
            rw [formDataReduceFunction, hn]
          have hb : (Except.ok (setKey acc (jsTrim n) (some r)) >>=
              fun acc2 => List.foldlM formDataReduceFunction acc2 rows)
                = List.foldlM formDataReduceFunction (setKey acc (jsTrim n) (some r)) rows := rfl
          rw [h1, hb, ih]
          simp [hn]

theorem reduceRows_error_iff (rows : List Row) :
    reduceRows rows = Except.error () ↔ ∃ r ∈ rows, r.name = none :=
  foldlM_reduce_error_iff rows []

/-! ## Lemmas about the deletion-sentinel loop -/

theorem addSentinels_nil (m : Patch) : addSentinels [] m = m := rfl

theorem addSentinels_cons (k : String) (pk : List String) (m : Patch) :
    addSentinels (k :: pk) m
      = addSentinels pk (if k ≠ "" ∧ ¬ hasKey m k then setKey m ("-=" ++ k) none else m) := rfl

theorem lookupKey_addSentinels_empty (pk : List String) (m : Patch) :
    lookupKey (addSentinels pk m) "" = lookupKey m "" := by
  induction pk generalizing m with
  | nil => rfl
  | cons k pk ih =>
      rw [addSentinels_cons]
      by_cases hc : (k ≠ "" ∧ ¬ hasKey m k)
      · rw [if_pos hc, ih, lookupKey_setKey_ne _ _ (Ne.symm (sentinel_key_ne_empty k))]
      · rw [if_neg hc, ih]

theorem addSentinels_id {pk : List String} {m : Patch}
    (h : ∀ k ∈ pk, hasKey m k = true) : addSentinels pk m = m := by
  induction pk with
  | nil => rfl
  | cons k pk ih =>
      rw [addSentinels_cons, if_neg (fun hc => hc.2 (h k (List.mem_cons_self k pk)))]
      exact ih (fun k2 hk2 => h k2 (List.mem_cons_of_mem k hk2))

theorem addSentinels_closed {pk : List String} {m : Patch} (hnd : pk.Nodup)
    (hsep : ∀ k ∈ pk, hasKey m ("-=" ++ k) = false)
    (hself : ∀ k ∈ pk, ∀ k2 ∈ pk, ("-=" ++ k) ≠ k2) :
    addSentinels pk m = m ++ sentinelsFor pk m := by
  induction pk generalizing m with
  | nil => rw [addSentinels_nil, sentinelsFor, List.filter_nil, List.map_nil, List.append_nil]
  | cons k pk ih =>
      obtain ⟨hk_notmem, hnd2⟩ := List.nodup_cons.mp hnd
      rw [addSentinels_cons, sentinelsFor, List.filter_cons]
      by_cases hc : (k ≠ "" ∧ ¬ hasKey m k)
      · have hmk : hasKey m k = false := by
          rcases Bool.eq_false_or_eq_true (hasKey m k) with h1 | h1
          · exact absurd h1 hc.2
          · exact h1
        have hb : (!(k == "") && !(hasKey m k)) = true := by
          simp [hc.1, hmk]
        rw [if_pos hc, if_pos hb, List.map_cons]
        have hsk : hasKey m ("-=" ++ k) = false := hsep k (List.mem_cons_self k pk)
        rw [setKey_of_hasKey_false _ hsk]
        have hsep2 : ∀ k2 ∈ pk, hasKey (m ++ [("-=" ++ k, none)]) ("-=" ++ k2) = false := by
          intro k2 hk2
          rw [hasKey_append, Bool.or_eq_false_iff]
          refine ⟨hsep k2 (List.mem_cons_of_mem k hk2), ?_⟩
          have hne : k ≠ k2 := fun hh => hk_notmem (hh ▸ hk2)
          rw [hasKey_cons, hasKey_nil]
          simp only [Bool.or_false]
          simp only [beq_eq_false_iff_ne, ne_eq]
          exact fun hh => hne (str_append_cancel hh)
        have hself2 : ∀ k2 ∈ pk, ∀ k3 ∈ pk, ("-=" ++ k2) ≠ k3 :=
          fun k2 hk2 k3 hk3 =>
            hself k2 (List.mem_cons_of_mem k hk2) k3 (List.mem_cons_of_mem k hk3)
        rw [ih hnd2 hsep2 hself2]
        have hfil : sentinelsFor pk (m ++ [("-=" ++ k, none)]) = sentinelsFor pk m := by
          rw [sentinelsFor, sentinelsFor]
          congr 1
          refine List.filter_congr (fun k2 hk2 => ?_)
          have hne : ("-=" ++ k) ≠ k2 :=
            hself k (List.mem_cons_self k pk) k2 (List.mem_cons_of_mem k hk2)
          rw [hasKey_append, hasKey_cons, hasKey_nil]
          have hb2 : (("-=" ++ k) == k2) = false := by
            simp only [beq_eq_false_iff_ne, ne_eq]
            exact hne
          rw [hb2]
          simp
        rw [hfil, List.append_assoc]
        rfl
      · have hb : (!(k == "") && !(hasKey m k)) = false := by
          rcases Decidable.not_and_iff_or_not.mp hc with h1 | h1
          · have : k = "" := Decidable.not_not.mp h1
            simp [this]
          · have : hasKey m k = true := Decidable.not_not.mp h1
            simp [this]
        rw [if_neg hc, if_neg (by rw [hb]; exact Bool.false_ne_true)]
        exact ih hnd2
          (fun k2 hk2 => hsep k2 (List.mem_cons_of_mem k hk2))
          (fun k2 hk2 k3 hk3 =>
            hself k2 (List.mem_cons_of_mem k hk2) k3 (List.mem_cons_of_mem k hk3))

theorem lookupKey_mem {l : List (String × α)} {k : String} {v : α}
    (h : lookupKey l k = some v) : (k, v) ∈ l := by
  rw [lookupKey] at h
  cases hf : List.find? (fun e => e.1 == k) l with
  | none => rw [hf] at h; exact absurd h (by simp)
  | some e =>
      rw [hf] at h
      have hm := List.mem_of_find?_eq_some hf
      have hp := List.find?_some hf
      have hk : e.1 = k := by simpa using hp
      have hv : e.2 = v := by simpa using h
      have : e = (k, v) := Prod.ext hk hv
      rw [← this]
      exact hm

theorem sentinelsFor_keys (pk : List String) (m : Patch) :
    (sentinelsFor pk m).map Prod.fst
      = (pk.filter (fun k => !(k == "") && !(hasKey m k))).map (fun k => "-=" ++ k) := by
  rw [sentinelsFor, List.map_map]
  rfl

theorem sentinelsFor_nodup {pk : List String} (m : Patch) (hnd : pk.Nodup) :
    ((sentinelsFor pk m).map Prod.fst).Nodup := by
  rw [sentinelsFor_keys]
  have hinj : Function.Injective (fun k : String => "-=" ++ k) :=
    fun a b h => str_append_cancel h
  exact (hnd.filter _).map hinj

theorem sentinelsFor_mem {pk : List String} {m : Patch} {e : String × Option Row}
    (h : e ∈ sentinelsFor pk m) :
    ∃ k ∈ pk, k ≠ "" ∧ hasKey m k = false ∧ e = ("-=" ++ k, none) := by
  rw [sentinelsFor] at h
  obtain ⟨k, hk, hke⟩ := List.mem_map.mp h
  obtain ⟨hkm, hp⟩ := List.mem_filter.mp hk
  rw [Bool.and_eq_true, Bool.not_eq_true', Bool.not_eq_true'] at hp
  exact ⟨k, hkm, by simpa using hp.1, hp.2, hke.symm⟩

theorem mem_sentinelsFor {pk : List String} {m : Patch} {k : String}
    (hk : k ∈ pk) (hne : k ≠ "") (hmk : hasKey m k = false) :
    ("-=" ++ k, (none : Option Row)) ∈ sentinelsFor pk m := by
  rw [sentinelsFor]
  refine List.mem_map.mpr ⟨k, List.mem_filter.mpr ⟨hk, ?_⟩, rfl⟩
  simp [hne, hmk]

/-! ## Relating `updateObject` to the per-collection patch -/

theorem collectionPatch_eq_ok (persisted : List (String × Row)) {rows : List Row}
    (h : ∀ r ∈ rows, r.name.isSome) :
    collectionPatch persisted rows
      = Except.ok (addSentinels (persisted.map Prod.fst) (reducePure rows)) := by
  rw [collectionPatch, reduceRows_eq_ok h]
  rfl

theorem updateObject_eq (doc : ActorDoc) (formData : List (String × String)) (fd : Submission) :
    updateObject doc formData fd =
      (collectionPatch doc.skills fd.skills).bind (fun s =>
        (collectionPatch doc.weapons fd.weapons).bind (fun w =>
          (collectionPatch doc.abilities fd.abilities).map (fun a =>
            assemble doc formData s w a))) := by
  cases hs : reduceRows fd.skills with
  | error e =>
      cases e
      simp [updateObject, collectionPatch, hs, bind, Except.bind, Except.map]
  | ok s =>
      cases hw : reduceRows fd.weapons with
      | error e =>
          cases e
          simp [updateObject, collectionPatch, hs, hw, bind, Except.bind, Except.map]
      | ok w =>
          cases ha : reduceRows fd.abilities with
          | error e =>
              cases e
              simp [updateObject, collectionPatch, hs, hw, ha, bind, Except.bind, Except.map]
          | ok a =>
              simp only [updateObject, collectionPatch, hs, hw, ha, bind, Except.bind,
                Except.map]
              rfl

theorem updateObject_ok (doc : ActorDoc) (formData : List (String × String)) (fd : Submission)
    (hs : ∀ r ∈ fd.skills, r.name.isSome) (hw : ∀ r ∈ fd.weapons, r.name.isSome)
    (ha : ∀ r ∈ fd.abilities, r.name.isSome) :
    updateObject doc formData fd = Except.ok
      (assemble doc formData
        (addSentinels (doc.skills.map Prod.fst) (reducePure fd.skills))
        (addSentinels (doc.weapons.map Prod.fst) (reducePure fd.weapons))
        (addSentinels (doc.abilities.map Prod.fst) (reducePure fd.abilities))) := by
  rw [updateObject_eq, collectionPatch_eq_ok _ hs, collectionPatch_eq_ok _ hw,
    collectionPatch_eq_ok _ ha]
  rfl

theorem collectionPatch_error_iff (persisted : List (String × Row)) (rows : List Row) :
    collectionPatch persisted rows = Except.error () ↔ ∃ r ∈ rows, r.name = none := by
  rw [collectionPatch]
  cases h : reduceRows rows with
  | error e =>
      cases e
      exact iff_of_true rfl ((reduceRows_error_iff rows).mp h)
  | ok m =>
      refine iff_of_false (fun hh => Except.noConfusion hh) ?_
      rintro ⟨r, hr, hn⟩
      have h2 := (reduceRows_error_iff rows).mpr ⟨r, hr, hn⟩
      rw [h] at h2
      exact Except.noConfusion h2

theorem onClickControl_create (control : String) (t : Table) (r0 : Option String) :
    onClickControl control "create" t r0 = match t.templates.head? with
      | none => Except.error
          (SheetErr.configError ("No row template found in " ++ control ++ " table"))
      | some tpl => Except.ok ⟨{ t with body := t.body ++ [tpl] }, false⟩ := rfl

theorem onClickControl_delete (control : String) (t : Table) (r0 : Option String) :
    onClickControl control "delete" t r0 = match r0 with
      | none => Except.error SheetErr.typeError
      | some r => Except.ok ⟨{ t with body := t.body.erase r }, true⟩ := rfl

/-! ## The claims -/

/-- C2: for each managed collection, `_updateObject` keys the row-indexed
submission by `trim(entity.name)` in iteration order, so the keyed map
binds each key to the last submitted row trimming to it, holds at most
one entry per key, and exactly one entry for every key some row trims to
(later duplicate rows silently win). -/
theorem claim_C2 (rows : List Row) (hall : ∀ r ∈ rows, r.name.isSome) :
    ∃ m, reduceRows rows = Except.ok m ∧
      (∀ k, lookupKey m k = (lastMatch rows k).map Option.some) ∧
      (∀ k, countKey m k ≤ 1) ∧
      (∀ k, (∃ r ∈ rows, trimName r = some k) → countKey m k = 1) := by
  refine ⟨reducePure rows, reduceRows_eq_ok hall, lookupKey_reducePure rows,
    countKey_reducePure_le rows, ?_⟩
  rintro k ⟨r, hr, hk⟩
  have hmem : r ∈ rows.filter (fun r2 => trimName r2 == some k) :=
    List.mem_filter.mpr ⟨hr, by simp [hk]⟩
  have hne : rows.filter (fun r2 => trimName r2 == some k) ≠ [] := by
    intro hh
    rw [hh] at hmem
    exact List.not_mem_nil r hmem
  obtain ⟨r2, hr2⟩ :=
    Option.isSome_iff_exists.mp (List.getLast?_isSome.mpr hne)
  have hlk : lookupKey (reducePure rows) k = some (some r2) := by
    rw [lookupKey_reducePure, lastMatch, hr2]
    rfl
  have h1 := countKey_pos_of_lookupKey hlk
  have h2 := countKey_reducePure_le rows k
  omega

/-- C2 witness: two rows both trimming to "X"; the keyed map holds
exactly one "X" entry, bound to the second row. -/
theorem claim_C2_witness :
    (∀ r ∈ [rowX1, rowX2], r.name.isSome) ∧
    ∃ m, reduceRows [rowX1, rowX2] = Except.ok m ∧
      (∀ k, lookupKey m k = (lastMatch [rowX1, rowX2] k).map Option.some) ∧
      (∀ k, countKey m k ≤ 1) ∧
      (∀ k, (∃ r ∈ [rowX1, rowX2], trimName r = some k) → countKey m k = 1) :=
  ⟨by decide, claim_C2 [rowX1, rowX2] (by decide)⟩

/-- C9: `_updateObject` raises the modelled TypeError (from
`v["name"].trim()` on a row without a string name) if and only if some
submitted row of a managed collection lacks a string "name" property; on
such submissions no patch is produced. -/
theorem claim_C9 (doc : ActorDoc) (formData : List (String × String)) (fd : Submission) :
    updateObject doc formData fd = Except.error () ↔
      ∃ r, (r ∈ fd.skills ∨ r ∈ fd.weapons ∨ r ∈ fd.abilities) ∧ r.name = none := by
  rw [updateObject_eq]
  cases hs : reduceRows fd.skills with
  | error e =>
      cases e
      have h1 : collectionPatch doc.skills fd.skills = Except.error () := by
        rw [collectionPatch, hs]
        rfl
      rw [h1]
      obtain ⟨r, hr, hn⟩ := (reduceRows_error_iff fd.skills).mp hs
      exact iff_of_true rfl ⟨r, Or.inl hr, hn⟩
  | ok s =>
      have h1 : collectionPatch doc.skills fd.skills
          = Except.ok (addSentinels (doc.skills.map Prod.fst) s) := by
        rw [collectionPatch, hs]
        rfl
      rw [h1]
      have hb1 : ∀ f : Patch → Except Unit (List (String × PatchVal)),
          (Except.ok (addSentinels (doc.skills.map Prod.fst) s)).bind f
            = f (addSentinels (doc.skills.map Prod.fst) s) := fun f => rfl
      rw [hb1]
      cases hw : reduceRows fd.weapons with
      | error e =>
          cases e
          have h2 : collectionPatch doc.weapons fd.weapons = Except.error () := by
            rw [collectionPatch, hw]
            rfl
          rw [h2]
          obtain ⟨r, hr, hn⟩ := (reduceRows_error_iff fd.weapons).mp hw
          exact iff_of_true rfl ⟨r, Or.inr (Or.inl hr), hn⟩
      | ok w =>
          have h2 : collectionPatch doc.weapons fd.weapons
              = Except.ok (addSentinels (doc.weapons.map Prod.fst) w) := by
            rw [collectionPatch, hw]
            rfl
          rw [h2]
          have hb2 : ∀ f : Patch → Except Unit (List (String × PatchVal)),
              (Except.ok (addSentinels (doc.weapons.map Prod.fst) w)).bind f
                = f (addSentinels (doc.weapons.map Prod.fst) w) := fun f => rfl
          rw [hb2]
          cases ha : reduceRows fd.abilities with
          | error e =>
              cases e
              have h3 : collectionPatch doc.abilities fd.abilities = Except.error () := by
                rw [collectionPatch, ha]
                rfl
              rw [h3]
              obtain ⟨r, hr, hn⟩ := (reduceRows_error_iff fd.abilities).mp ha
              exact iff_of_true rfl ⟨r, Or.inr (Or.inr hr), hn⟩
          | ok a =>
              have h3 : collectionPatch doc.abilities fd.abilities
                  = Except.ok (addSentinels (doc.abilities.map Prod.fst) a) := by
                rw [collectionPatch, ha]
                rfl
              rw [h3]
              refine iff_of_false (fun hh => Except.noConfusion hh) ?_
              rintro ⟨r, hmem, hn⟩
              rcases hmem with h | h | h
              · have h4 := (reduceRows_error_iff fd.skills).mpr ⟨r, h, hn⟩
                rw [hs] at h4
                exact Except.noConfusion h4
              · have h4 := (reduceRows_error_iff fd.weapons).mpr ⟨r, h, hn⟩
                rw [hw] at h4
                exact Except.noConfusion h4
              · have h4 := (reduceRows_error_iff fd.abilities).mpr ⟨r, h, hn⟩
                rw [ha] at h4
                exact Except.noConfusion h4

/-- C5 counterexample: invoking the skill rebinder with an empty name on
a row whose paths encode "A" is not a no-op — it rewrites every path and
produces the empty-key-segment identifier `data.skills..stat`, refuting
the claimed empty-name guard. -/
theorem claim_C5_counterexample :
    onSkillNameChange "" skillRowA ≠ skillRowA ∧
    (onSkillNameChange "" skillRowA).stat = "data.skills..stat" := by
  constructor
  · decide
  · rfl

/-- C5 (amended): each rebinder unconditionally overwrites every field
path of its row as a function of the given name alone — so a repeated
invocation with an unchanged name is a no-op, but an empty name produces
identifiers with an empty key segment (e.g. `data.skills..stat`) instead
of leaving the row untouched. -/
theorem claim_C5_amended :
    (∀ v r r2, onSkillNameChange v r = onSkillNameChange v r2) ∧
    (∀ v r, onSkillNameChange v (onSkillNameChange v r) = onSkillNameChange v r) ∧
    (∀ r, (onSkillNameChange "" r).stat = "data.skills..stat") ∧
    (∀ v r r2, onWeaponNameChange v r = onWeaponNameChange v r2) ∧
    (∀ v r, onWeaponNameChange v (onWeaponNameChange v r) = onWeaponNameChange v r) ∧
    (∀ r, (onWeaponNameChange "" r).damage = "data.equipment.weapons..damage") ∧
    (∀ v r r2, onAbilityNameChange v r = onAbilityNameChange v r2) ∧
    (∀ v r, onAbilityNameChange v (onAbilityNameChange v r) = onAbilityNameChange v r) ∧
    (∀ r, (onAbilityNameChange "" r).description = "data.abilities..description") :=
  ⟨fun _ _ _ => rfl, fun _ _ => rfl, fun _ => rfl,
   fun _ _ _ => rfl, fun _ _ => rfl, fun _ => rfl,
   fun _ _ _ => rfl, fun _ _ => rfl, fun _ => rfl⟩

/-- C6: the create action throws the configuration error exactly when the
table holds no row template, and otherwise appends exactly one clone of
the (first) template's content at the end of the body without submitting.
(In the functional model a thrown error yields no table, so existing rows
are untouched on failure.) -/
theorem claim_C6 (control : String) (table : Table) (row : Option String) :
    ((∃ msg, onClickControl control "create" table row
        = Except.error (SheetErr.configError msg)) ↔ table.templates = []) ∧
    (∀ tpl, table.templates.head? = some tpl →
      onClickControl control "create" table row
        = Except.ok ⟨{ table with body := table.body ++ [tpl] }, false⟩) := by
  constructor
  · constructor
    · rintro ⟨msg, hmsg⟩
      rw [onClickControl_create] at hmsg
      cases h : table.templates.head? with
      | none => exact List.head?_eq_none_iff.mp h
      | some tpl =>
          rw [h] at hmsg
          exact Except.noConfusion hmsg
    · intro h
      refine ⟨"No row template found in " ++ control ++ " table", ?_⟩
      rw [onClickControl_create, h]
      rfl
  · intro tpl htpl
    rw [onClickControl_create, htpl]

/-- C6 witness: on a concrete table with one template, create appends one
clone of the template content and does not error. -/
theorem claim_C6_witness :
    onClickControl "skill" "create" ⟨["tr"], ["r0"]⟩ none
      = Except.ok ⟨⟨["tr"], ["r0", "tr"]⟩, false⟩ :=
  (claim_C6 "skill" ⟨["tr"], ["r0"]⟩ none).2 "tr" rfl

/-- C7: the delete action detaches the located row and always triggers a
form commit in the same invocation (`submitted = true`), while the create
action never triggers a commit (`submitted = false` on every successful
creation). -/
theorem claim_C7 (control : String) (table : Table) (r : String) (row : Option String) :
    onClickControl control "delete" table (some r)
        = Except.ok ⟨{ table with body := table.body.erase r }, true⟩ ∧
    (∀ res, onClickControl control "create" table row = Except.ok res →
      res.submitted = false) := by
  constructor
  · rw [onClickControl_delete]
  · intro res hres
    rw [onClickControl_create] at hres
    cases h : table.templates.head? with
    | none =>
        rw [h] at hres
        exact Except.noConfusion hres
    | some tpl =>
        rw [h] at hres
        injection hres with h2
        rw [← h2]

/-- C7 witness: concrete delete detaches row "a" and submits; concrete
create yields a result with `submitted = false`. -/
theorem claim_C7_witness :
    onClickControl "skill" "delete" ⟨["tr"], ["a", "b"]⟩ (some "a")
        = Except.ok ⟨⟨["tr"], ["b"]⟩, true⟩ ∧
    (⟨⟨["tr"], ["a", "b", "tr"]⟩, false⟩ : ClickResult).submitted = false :=
  ⟨(claim_C7 "skill" ⟨["tr"], ["a", "b"]⟩ "a" none).1,
   (claim_C7 "skill" ⟨["tr"], ["a", "b"]⟩ "a" none).2 ⟨⟨["tr"], ["a", "b", "tr"]⟩, false⟩ rfl⟩

theorem not_beq_of_ne {a b : String} (h : a ≠ b) : ¬ ((a == b) = true) := by
  simpa using h

/-- C8: a no-op submit — when the keyed submission map binds exactly the
persisted keys to exactly the persisted entities, the finished collection
map is the keyed map itself: no deletion sentinel is added, no entry is
null, and every lookup still mirrors the persisted collection. -/
theorem claim_C8 (persisted : List (String × Row)) (rows : List Row)
    (hall : ∀ r ∈ rows, r.name.isSome)
    (hsame : ∀ k, lookupKey (reducePure rows) k = (lookupKey persisted k).map Option.some) :
    ∃ p, collectionPatch persisted rows = Except.ok p ∧ p = reducePure rows ∧
      (∀ e ∈ p, e.2 ≠ none) ∧
      (∀ k, lookupKey p k = (lookupKey persisted k).map Option.some) := by
  have hid : addSentinels (persisted.map Prod.fst) (reducePure rows) = reducePure rows := by
    apply addSentinels_id
    intro k hk
    have h1 : hasKey persisted k = true := (hasKey_iff_mem persisted k).mpr hk
    rw [hasKey_eq_isSome_lookupKey] at h1
    obtain ⟨r, hr⟩ := Option.isSome_iff_exists.mp h1
    have h2 : lookupKey (reducePure rows) k = some (some r) := by
      rw [hsame, hr]
      rfl
    exact hasKey_true_of_lookupKey h2
  refine ⟨reducePure rows, ?_, rfl, reducePure_vals rows, hsame⟩
  rw [collectionPatch_eq_ok persisted hall, hid]

/-- C8 witness: one persisted skill "A" resubmitted unchanged yields a
patch map identical to the persisted collection, with no sentinel. -/
theorem claim_C8_witness :
    (∀ r ∈ [rowA], r.name.isSome) ∧
    (∀ k, lookupKey (reducePure [rowA]) k = (lookupKey [("A", rowA)] k).map Option.some) ∧
    ∃ p, collectionPatch [("A", rowA)] [rowA] = Except.ok p ∧ p = reducePure [rowA] ∧
      (∀ e ∈ p, e.2 ≠ none) ∧
      (∀ k, lookupKey p k = (lookupKey [("A", rowA)] k).map Option.some) := by
  have hsame : ∀ k, lookupKey (reducePure [rowA]) k
      = (lookupKey [("A", rowA)] k).map Option.some := by
    intro k
    have h1 : reducePure [rowA] = [("A", some rowA)] := rfl
    rw [h1, lookupKey_cons, lookupKey_cons, lookupKey_nil, lookupKey_nil]
    by_cases hk : ("A" == k) = true
    · rw [if_pos hk, if_pos hk]
      rfl
    · rw [if_neg hk, if_neg hk]
      rfl
  exact ⟨by decide, hsame, claim_C8 [("A", rowA)] [rowA] (by decide) hsame⟩

/-- C3 counterexample: a submitted row whose name trims to "" is NOT
excluded from the keyed map — on a concrete run it lands in the finished
collection patch under the empty-string key, refuting the claim. -/
theorem claim_C3_counterexample :
    ¬ ∀ (persisted : List (String × Row)) (rows : List Row) (p : Patch),
        collectionPatch persisted rows = Except.ok p →
        ∀ r ∈ rows, trimName r = some "" → lookupKey p "" = none := by
  intro hc
  have h1 : collectionPatch [] [rowBlank] = Except.ok [("", some rowBlank)] := rfl
  exact absurd (hc [] [rowBlank] [("", some rowBlank)] h1 rowBlank (by decide) (by decide))
    (by decide)

/-- C3 (amended): a submitted entity whose name is empty after trimming
is not dropped — it is keyed under the empty string in the collection map
(the last such row winning), and that entry survives into the patch since
the deletion loop never writes the empty key. -/
theorem claim_C3_amended (persisted : List (String × Row)) (rows : List Row)
    (hall : ∀ r ∈ rows, r.name.isSome)
    (hempty : ∃ r ∈ rows, trimName r = some "") :
    ∃ p r2, collectionPatch persisted rows = Except.ok p ∧
      r2 ∈ rows ∧ trimName r2 = some "" ∧ lookupKey p "" = some (some r2) := by
  obtain ⟨r, hr, htrim⟩ := hempty
  have hmem : r ∈ rows.filter (fun r2 => trimName r2 == some "") :=
    List.mem_filter.mpr ⟨hr, by simp [htrim]⟩
  have hne : rows.filter (fun r2 => trimName r2 == some "") ≠ [] := by
    intro hh
    rw [hh] at hmem
    exact List.not_mem_nil r hmem
  obtain ⟨r2, hr2⟩ := Option.isSome_iff_exists.mp (List.getLast?_isSome.mpr hne)
  have hr2f : r2 ∈ rows.filter (fun r3 => trimName r3 == some "") :=
    List.mem_of_getLast?_eq_some hr2
  have hlk : lookupKey (reducePure rows) "" = some (some r2) := by
    rw [lookupKey_reducePure, lastMatch, hr2]
    rfl
  refine ⟨addSentinels (persisted.map Prod.fst) (reducePure rows), r2,
    collectionPatch_eq_ok persisted hall, (List.mem_filter.mp hr2f).1,
    by simpa using (List.mem_filter.mp hr2f).2, ?_⟩
  rw [lookupKey_addSentinels_empty, hlk]

/-- C3 witness: a single whitespace-named row submitted against a
persisted skill "A" ends up keyed under "" in the finished map. -/
theorem claim_C3_witness :
    (∀ r ∈ [rowBlank], r.name.isSome) ∧ (∃ r ∈ [rowBlank], trimName r = some "") ∧
    ∃ p r2, collectionPatch [("A", rowA)] [rowBlank] = Except.ok p ∧
      r2 ∈ [rowBlank] ∧ trimName r2 = some "" ∧ lookupKey p "" = some (some r2) :=
  ⟨by decide, by decide, claim_C3_amended [("A", rowA)] [rowBlank] (by decide) (by decide)⟩

/-- C1 counterexample: the sentinel-emission set is not exactly the
vanished persisted keys — a persisted empty-string key "" that is absent
from the submission receives no `"-=" + K` sentinel, because the loop
skips falsy keys. -/
theorem claim_C1_counterexample :
    ¬ ∀ (persisted : List (String × Row)) (rows : List Row) (p : Patch),
        collectionPatch persisted rows = Except.ok p →
        ∀ K, hasKey persisted K = true → hasKey (reducePure rows) K = false →
          lookupKey p ("-=" ++ K) = some none := by
  intro hc
  have h1 : collectionPatch [("", rowA)] [] = Except.ok [] := rfl
  exact absurd (hc [("", rowA)] [] [] h1 "" (by decide) (by decide)) (by decide)

/-- C1 (amended): provided every persisted key is non-empty and no
persisted key or submitted trimmed name collides with a sentinel key
(no `"-=" + K` shape), the patch holds `"-=" + K → null` exactly for the
persisted keys `K` absent from the keyed submission map, such a `K` has
no other entry, and no sentinel arises for an unpersisted key. -/
theorem claim_C1_amended (persisted : List (String × Row)) (rows : List Row)
    (hall : ∀ r ∈ rows, r.name.isSome)
    (hnd : (persisted.map Prod.fst).Nodup)
    (hkeys : ∀ e ∈ persisted, e.1 ≠ "")
    (hself : ∀ e ∈ persisted, ∀ e2 ∈ persisted, ("-=" ++ e.1) ≠ e2.1)
    (hsep : ∀ e ∈ persisted, hasKey (reducePure rows) ("-=" ++ e.1) = false) :
    ∃ p, collectionPatch persisted rows = Except.ok p ∧
      ∀ K, (lookupKey p ("-=" ++ K) = some none ↔
              (hasKey persisted K = true ∧ hasKey (reducePure rows) K = false)) ∧
           (hasKey persisted K = true → hasKey (reducePure rows) K = false →
              lookupKey p K = none) := by
  have hkeys2 : ∀ k ∈ persisted.map Prod.fst, k ≠ "" := by
    intro k hk
    obtain ⟨e, he, hfst⟩ := List.mem_map.mp hk
    exact hfst ▸ hkeys e he
  have hself2 : ∀ k ∈ persisted.map Prod.fst, ∀ k2 ∈ persisted.map Prod.fst,
      ("-=" ++ k) ≠ k2 := by
    intro k hk k2 hk2
    obtain ⟨e, he, hfst⟩ := List.mem_map.mp hk
    obtain ⟨e2, he2, hfst2⟩ := List.mem_map.mp hk2
    exact hfst ▸ hfst2 ▸ hself e he e2 he2
  have hsep2 : ∀ k ∈ persisted.map Prod.fst, hasKey (reducePure rows) ("-=" ++ k) = false := by
    intro k hk
    obtain ⟨e, he, hfst⟩ := List.mem_map.mp hk
    exact hfst ▸ hsep e he
  have hcf := addSentinels_closed hnd hsep2 hself2
  refine ⟨reducePure rows ++ sentinelsFor (persisted.map Prod.fst) (reducePure rows),
    by rw [collectionPatch_eq_ok persisted hall, hcf], fun K => ⟨⟨?_, ?_⟩, ?_⟩⟩
  · intro h
    by_cases hm : hasKey (reducePure rows) ("-=" ++ K) = true
    · rw [lookupKey_append, if_pos hm] at h
      exact absurd rfl (reducePure_vals rows _ (lookupKey_mem h))
    · rw [lookupKey_append, if_neg hm] at h
      obtain ⟨k, hkpk, hkne, hmk, hkeq⟩ := sentinelsFor_mem (lookupKey_mem h)
      injection hkeq with hk1 hk2
      have hKk : K = k := str_append_cancel hk1
      subst hKk
      exact ⟨(hasKey_iff_mem persisted K).mpr hkpk, hmk⟩
  · rintro ⟨hP, hM⟩
    have hKpk := (hasKey_iff_mem persisted K).mp hP
    rw [lookupKey_append, if_neg (by rw [hsep2 K hKpk]; exact Bool.false_ne_true)]
    exact lookupKey_of_mem_nodup (sentinelsFor_nodup _ hnd)
      (mem_sentinelsFor hKpk (hkeys2 K hKpk) hM)
  · intro hP hM
    have hKpk := (hasKey_iff_mem persisted K).mp hP
    rw [lookupKey_append, if_neg (by rw [hM]; exact Bool.false_ne_true)]
    apply lookupKey_eq_none_of_not_mem
    rw [sentinelsFor_keys]
    intro hmemk
    obtain ⟨k, hkf, hkeq⟩ := List.mem_map.mp hmemk
    exact hself2 k (List.mem_filter.mp hkf).1 K hKpk hkeq

/-- C1 witness: persisted \x7b"A", "B"\x7d, submission keeps only "A":
the patch holds exactly the sentinel `-=B → null`, and "B" has no other
entry. -/
theorem claim_C1_witness :
    (∀ r ∈ [rowA], r.name.isSome) ∧
    (([("A", rowA), ("B", rowX1)].map Prod.fst).Nodup) ∧
    (∀ e ∈ [("A", rowA), ("B", rowX1)], e.1 ≠ "") ∧
    (∀ e ∈ [("A", rowA), ("B", rowX1)], ∀ e2 ∈ [("A", rowA), ("B", rowX1)],
      ("-=" ++ e.1) ≠ e2.1) ∧
    (∀ e ∈ [("A", rowA), ("B", rowX1)], hasKey (reducePure [rowA]) ("-=" ++ e.1) = false) ∧
    ∃ p, collectionPatch [("A", rowA), ("B", rowX1)] [rowA] = Except.ok p ∧
      ∀ K, (lookupKey p ("-=" ++ K) = some none ↔
              (hasKey [("A", rowA), ("B", rowX1)] K = true
                ∧ hasKey (reducePure [rowA]) K = false)) ∧
           (hasKey [("A", rowA), ("B", rowX1)] K = true →
              hasKey (reducePure [rowA]) K = false → lookupKey p K = none) :=
  ⟨by decide, by decide, by decide, by decide, by decide,
   claim_C1_amended [("A", rowA), ("B", rowX1)] [rowA]
     (by decide) (by decide) (by decide) (by decide) (by decide)⟩

/-- C10 counterexample: with an empty submission the finished map does
NOT always hold one sentinel per non-empty persisted key — a persisted
key "-=X" colliding with the sentinel written for persisted key "X" is
skipped by the `hasOwnProperty` test against the map being mutated. -/
theorem claim_C10_counterexample :
    ¬ ∀ (persisted : List (String × Row)) (p : Patch),
        collectionPatch persisted [] = Except.ok p →
        ∀ e ∈ persisted, e.1 ≠ "" → lookupKey p ("-=" ++ e.1) = some none := by
  intro hc
  have h1 : collectionPatch [("X", rowA), ("-=X", rowX1)] []
      = Except.ok [("-=X", none)] := rfl
  exact absurd (hc [("X", rowA), ("-=X", rowX1)] [("-=X", none)] h1
    ("-=X", rowX1) (by decide) (by decide)) (by decide)

/-- C10 (amended): when the flattened submission has no entries for a
managed collection, the finished map consists solely of deletion
sentinels, one `"-=" + K → null` per non-empty persisted key `K` —
provided no persisted key collides with another's sentinel key. -/
theorem claim_C10_amended (persisted : List (String × Row))
    (hnd : (persisted.map Prod.fst).Nodup)
    (hself : ∀ e ∈ persisted, ∀ e2 ∈ persisted, ("-=" ++ e.1) ≠ e2.1) :
    ∃ p, collectionPatch persisted [] = Except.ok p ∧
      p = ((persisted.map Prod.fst).filter (fun k => !(k == ""))).map
            (fun k => ("-=" ++ k, (none : Option Row))) ∧
      (∀ e ∈ p, e.2 = none) ∧
      (∀ e ∈ persisted, e.1 ≠ "" → lookupKey p ("-=" ++ e.1) = some none) := by
  have hself2 : ∀ k ∈ persisted.map Prod.fst, ∀ k2 ∈ persisted.map Prod.fst,
      ("-=" ++ k) ≠ k2 := by
    intro k hk k2 hk2
    obtain ⟨e, he, hfst⟩ := List.mem_map.mp hk
    obtain ⟨e2, he2, hfst2⟩ := List.mem_map.mp hk2
    exact hfst ▸ hfst2 ▸ hself e he e2 he2
  have hsep2 : ∀ k ∈ persisted.map Prod.fst, hasKey (reducePure []) ("-=" ++ k) = false :=
    fun k _ => rfl
  have hcf := addSentinels_closed hnd hsep2 hself2
  have hfil : sentinelsFor (persisted.map Prod.fst) (reducePure [])
      = ((persisted.map Prod.fst).filter (fun k => !(k == ""))).map
          (fun k => ("-=" ++ k, (none : Option Row))) := by
    rw [sentinelsFor]
    congr 1
    refine List.filter_congr (fun k hk => ?_)
    rw [show hasKey (reducePure []) k = false from rfl]
    simp
  have hok : collectionPatch persisted []
      = Except.ok (((persisted.map Prod.fst).filter (fun k => !(k == ""))).map
          (fun k => ("-=" ++ k, (none : Option Row)))) := by
    rw [collectionPatch_eq_ok persisted (fun r hr => absurd hr (List.not_mem_nil r)),
      hcf, hfil]
    rfl
  refine ⟨_, hok, rfl, ?_, ?_⟩
  · intro e he
    obtain ⟨k, _, hke⟩ := List.mem_map.mp he
    rw [← hke]
  · intro e he hne
    have hKpk : e.1 ∈ persisted.map Prod.fst := List.mem_map.mpr ⟨e, he, rfl⟩
    have hmem : ("-=" ++ e.1, (none : Option Row))
        ∈ ((persisted.map Prod.fst).filter (fun k => !(k == ""))).map
            (fun k => ("-=" ++ k, (none : Option Row))) :=
      List.mem_map.mpr ⟨e.1, List.mem_filter.mpr ⟨hKpk, by simp [hne]⟩, rfl⟩
    have hndk : ((((persisted.map Prod.fst).filter (fun k => !(k == ""))).map
        (fun k => ("-=" ++ k, (none : Option Row)))).map Prod.fst).Nodup := by
      rw [List.map_map]
      have hinj : Function.Injective (fun k : String => "-=" ++ k) :=
        fun a b h => str_append_cancel h
      exact (hnd.filter _).map hinj
    exact lookupKey_of_mem_nodup hndk hmem

/-- C10 witness: persisted keys "A" and "" with an empty submission: the
finished map is exactly the single sentinel `-=A → null` (the empty key
is skipped). -/
theorem claim_C10_witness :
    (([("A", rowA), ("", rowX1)].map Prod.fst).Nodup) ∧
    (∀ e ∈ [("A", rowA), ("", rowX1)], ∀ e2 ∈ [("A", rowA), ("", rowX1)],
      ("-=" ++ e.1) ≠ e2.1) ∧
    ∃ p, collectionPatch [("A", rowA), ("", rowX1)] [] = Except.ok p ∧
      p = (([("A", rowA), ("", rowX1)].map Prod.fst).filter (fun k => !(k == ""))).map
            (fun k => ("-=" ++ k, (none : Option Row))) ∧
      (∀ e ∈ p, e.2 = none) ∧
      (∀ e ∈ [("A", rowA), ("", rowX1)], e.1 ≠ "" →
        lookupKey p ("-=" ++ e.1) = some none) :=
  ⟨by decide, by decide, claim_C10_amended [("A", rowA), ("", rowX1)] (by decide) (by decide)⟩

/-- C4 counterexample: the assembled patch does not always carry the
document identity — a raw flat entry named "_id" survives the namespace
filter and overwrites the seeded `_id`, so the patch binds `_id` to the
raw value instead of the document's. -/
theorem claim_C4_counterexample :
    ¬ ∀ (doc : ActorDoc) (formData : List (String × String)) (fd : Submission)
        (p : List (String × PatchVal)),
        updateObject doc formData fd = Except.ok p →
        lookupKey p "_id" = some (PatchVal.str doc.id) := by
  intro hc
  have h1 : updateObject ⟨"doc1", [], [], []⟩ [("_id", "zzz")] ⟨[], [], []⟩
      = Except.ok [("_id", PatchVal.str "zzz"), ("data.skills", PatchVal.obj []),
          ("data.equipment.weapons", PatchVal.obj []),
          ("data.abilities", PatchVal.obj [])] := rfl
  exact absurd (hc ⟨"doc1", [], [], []⟩ [("_id", "zzz")] ⟨[], [], []⟩ _ h1) (by decide)

/-- C4 (amended): provided the raw flat submission carries no "_id" key
of its own (otherwise it overwrites the seeded identity), the assembled
patch holds no raw key from the managed namespaces, binds `_id` to the
document identity and the three managed keys to the finished collection
maps, and carries every unmanaged raw entry through unchanged. -/
theorem claim_C4_amended (doc : ActorDoc) (formData : List (String × String)) (fd : Submission)
    (hs : ∀ r ∈ fd.skills, r.name.isSome) (hw : ∀ r ∈ fd.weapons, r.name.isSome)
    (ha : ∀ r ∈ fd.abilities, r.name.isSome)
    (hnd : (formData.map Prod.fst).Nodup)
    (hid : "_id" ∉ formData.map Prod.fst) :
    ∃ p, updateObject doc formData fd = Except.ok p ∧
      (∀ k, keyInManagedNS k = true → k ≠ "data.skills" → k ≠ "data.equipment.weapons" →
        k ≠ "data.abilities" → lookupKey p k = none) ∧
      lookupKey p "_id" = some (PatchVal.str doc.id) ∧
      lookupKey p "data.skills" = some (PatchVal.obj
        (addSentinels (doc.skills.map Prod.fst) (reducePure fd.skills))) ∧
      lookupKey p "data.equipment.weapons" = some (PatchVal.obj
        (addSentinels (doc.weapons.map Prod.fst) (reducePure fd.weapons))) ∧
      lookupKey p "data.abilities" = some (PatchVal.obj
        (addSentinels (doc.abilities.map Prod.fst) (reducePure fd.abilities))) ∧
      (∀ e ∈ formData, keyInManagedNS e.1 = false →
        lookupKey p e.1 = some (PatchVal.str e.2)) := by
  have hkeep : ∀ k, k ∈ (formData.filter (fun e => !(keyInManagedNS e.1))).map Prod.fst →
      k ∈ formData.map Prod.fst ∧ keyInManagedNS k = false := by
    intro k hk
    obtain ⟨e, he, hfst⟩ := List.mem_map.mp hk
    obtain ⟨hmem, hq⟩ := List.mem_filter.mp he
    refine ⟨hfst ▸ List.mem_map.mpr ⟨e, hmem, rfl⟩, hfst ▸ ?_⟩
    simpa using hq
  have hndf : ((formData.filter (fun e => !(keyInManagedNS e.1))).map Prod.fst).Nodup :=
    hnd.sublist ((List.filter_sublist formData).map Prod.fst)
  refine ⟨_, updateObject_ok doc formData fd hs hw ha, ?_, ?_, ?_, ?_, ?_, ?_⟩
  · intro k hk h1 h2 h3
    rw [assemble, lookupKey_foldl_setKey_not_mem PatchVal.str _ _ k
      (fun hmem => by rw [(hkeep k hmem).2] at hk; exact Bool.noConfusion hk)]
    have h0 : k ≠ "_id" := by
      intro hh
      rw [hh] at hk
      exact absurd hk (by decide)
    rw [lookupKey_cons, if_neg (not_beq_of_ne (fun hh => h0 hh.symm)),
      lookupKey_cons, if_neg (not_beq_of_ne (fun hh => h1 hh.symm)),
      lookupKey_cons, if_neg (not_beq_of_ne (fun hh => h2 hh.symm)),
      lookupKey_cons, if_neg (not_beq_of_ne (fun hh => h3 hh.symm)),
      lookupKey_nil]
  · rw [assemble, lookupKey_foldl_setKey_not_mem PatchVal.str _ _ "_id"
      (fun hmem => hid (hkeep "_id" hmem).1)]
    rfl
  · rw [assemble, lookupKey_foldl_setKey_not_mem PatchVal.str _ _ "data.skills"
      (fun hmem => by
        have := (hkeep "data.skills" hmem).2
        rw [show keyInManagedNS "data.skills" = true from by decide] at this
        exact Bool.noConfusion this)]
    rfl
  · rw [assemble, lookupKey_foldl_setKey_not_mem PatchVal.str _ _ "data.equipment.weapons"
      (fun hmem => by
        have := (hkeep "data.equipment.weapons" hmem).2
        rw [show keyInManagedNS "data.equipment.weapons" = true from by decide] at this
        exact Bool.noConfusion this)]
    rfl
  · rw [assemble, lookupKey_foldl_setKey_not_mem PatchVal.str _ _ "data.abilities"
      (fun hmem => by
        have := (hkeep "data.abilities" hmem).2
        rw [show keyInManagedNS "data.abilities" = true from by decide] at this
        exact Bool.noConfusion this)]
    rfl
  · intro e he hq
    have hef : (e.1, e.2) ∈ formData.filter (fun e2 => !(keyInManagedNS e2.1)) := by
      refine List.mem_filter.mpr ⟨?_, by simp [hq]⟩
      simpa using he
    rw [assemble, lookupKey_foldl_setKey_mem PatchVal.str _ _ hndf hef]

/-- C4 witness: an unmanaged scalar `data.armor` passes through, the
managed raw path `data.skills.0.name` is dropped, and the patch carries
the document identity and the three finished maps. -/
theorem claim_C4_witness :
    (∀ r ∈ ([rowA] : List Row), r.name.isSome) ∧
    (∀ r ∈ ([] : List Row), r.name.isSome) ∧
    (([("data.armor", "2"), ("data.skills.0.name", "A")].map
        (Prod.fst (β := String))).Nodup) ∧
    ("_id" ∉ [("data.armor", "2"), ("data.skills.0.name", "A")].map
        (Prod.fst (β := String))) ∧
    ∃ p, updateObject ⟨"doc1", [("B", rowX1)], [], []⟩
        [("data.armor", "2"), ("data.skills.0.name", "A")] ⟨[rowA], [], []⟩
        = Except.ok p ∧
      (∀ k, keyInManagedNS k = true → k ≠ "data.skills" → k ≠ "data.equipment.weapons" →
        k ≠ "data.abilities" → lookupKey p k = none) ∧
      lookupKey p "_id" = some (PatchVal.str "doc1") ∧
      lookupKey p "data.skills" = some (PatchVal.obj
        (addSentinels ([("B", rowX1)].map Prod.fst) (reducePure [rowA]))) ∧
      lookupKey p "data.equipment.weapons" = some (PatchVal.obj
        (addSentinels (([] : List (String × Row)).map Prod.fst) (reducePure []))) ∧
      lookupKey p "data.abilities" = some (PatchVal.obj
        (addSentinels (([] : List (String × Row)).map Prod.fst) (reducePure []))) ∧
      (∀ e ∈ [("data.armor", "2"), ("data.skills.0.name", "A")],
        keyInManagedNS e.1 = false → lookupKey p e.1 = some (PatchVal.str e.2)) :=
  ⟨by decide, by decide, by decide, by decide,
   claim_C4_amended ⟨"doc1", [("B", rowX1)], [], []⟩
     [("data.armor", "2"), ("data.skills.0.name", "A")] ⟨[rowA], [], []⟩
     (by decide) (by decide) (by decide) (by decide) (by decide)⟩

end NumeneraPC
